import Mathlib

/-!
Verification of the AutoStop single-axis motorized stop controller
(`AutoStop.py`): position formatting, target clamping, the motion
controller tick loop, and the two keypad entry machines.

Positions are modelled as rationals.  Python 2 `int()` (truncation toward
zero) and `round()` (half away from zero) are modelled explicitly; Python 2
integer division on `int` operands is Nat division.
-/

/-- Python 2 `int()` applied to a number: truncation toward zero. -/
def pyInt (q : ℚ) : ℤ := if 0 ≤ q then ⌊q⌋ else ⌈q⌉

/-- Python 2 `round(x, 0)`: round half away from zero, as an integer. -/
def pyRound (q : ℚ) : ℤ := if 0 ≤ q then ⌊q + 1/2⌋ else -⌊-q + 1/2⌋

/-- Unit mode, fixed at startup from the `Units` configuration key. -/
inductive UnitMode where
  | MM
  | IN
deriving DecidableEq

/-- Round-half-even to an integer, as used by Python float formatting. -/
def roundHalfEven (q : ℚ) : ℤ :=
  let f := ⌊q⌋
  let r := q - f
  if r < 1/2 then f
  else if 1/2 < r then f + 1
  else if f % 2 = 0 then f else f + 1

/-- Right-justify a string in a field of width `w` (Python `'{:>w}'`). -/
def rjust (w : ℕ) (s : String) : String :=
  if s.length < w then String.mk (List.replicate (w - s.length) ' ') ++ s
  else s

/-- Two-digit zero-padded rendering of `0 ≤ n < 100`. -/
def twoDigits (n : ℤ) : String :=
  (if n < 10 then "0" else "") ++ toString n.toNat

/-- Python `'{:.2f}'` style fixed two-decimal rendering of a rational. -/
def formatFix2 (q : ℚ) : String :=
  let n := roundHalfEven (|q| * 100)
  (if q < 0 then "-" else "") ++ toString (n / 100) ++ "." ++ twoDigits (n % 100)

/-- `numFormat` from the source: MM mode is a 10-wide field with two
decimals, IN mode an 8-wide integer field followed by two spaces. -/
def numFormat (u : UnitMode) (q : ℚ) : String :=
  match u with
  | .MM => rjust 10 (formatFix2 q)
  | .IN => rjust 8 (toString (pyInt q)) ++ "  "

/-- `setPrecision` from the source (the spec calls it `toFraction`):
remove the whole part, and if the remainder is nonzero round it to the
nearest multiple of `1/precision` and return the reduced
numerator/denominator pair (`Fraction` normalizes, as `Rat` does). -/
def setPrecision (precision : ℕ) (value : ℚ) : ℤ × ℤ :=
  let decimal := value - (pyInt value : ℚ)
  if decimal = 0 then (0, (precision : ℤ))
  else
    let r : ℚ := (pyRound (decimal * precision) : ℚ) / (precision : ℚ)
    (r.num, (r.den : ℤ))

/-- The value stored by `setTarget`: clamp below at `0`, above at
`PARKLOCATION`, and keep the old target on equality (no-op branch). -/
def setTargetVal (park target value : ℚ) : ℚ :=
  let v1 := if value ≤ 0 then 0 else value
  let v2 := if v1 ≥ park then park else v1
  if v2 = target then target else v2

/-- Target-side display state: `TargetVal`, `TargetValStr`,
`TargetNumeratorStr`, `TargetDenominatorStr`. -/
structure TargetState where
  val : ℚ
  str : String
  numerStr : ℤ
  denomStr : ℤ
deriving DecidableEq

/-- `setTarget` from the source: clamp into `[0, PARKLOCATION]`, return
unchanged when the clamped value equals the current target, otherwise
store the value and regenerate the display representation (the fraction
pair only in IN mode). -/
def setTarget (u : UnitMode) (precision : ℕ) (park : ℚ) (st : TargetState)
    (value : ℚ) : TargetState :=
  let v1 := if value ≤ 0 then 0 else value
  let v2 := if v1 ≥ park then park else v1
  if v2 = st.val then st
  else
    { val := v2
      str := numFormat u v2
      numerStr := if u = UnitMode.IN then (setPrecision precision v2).1 else st.numerStr
      denomStr := if u = UnitMode.IN then (setPrecision precision v2).2 else st.denomStr }

/-- The clamp described by the spec: `value` clamped into `[0, ParkLocation]`. -/
def clampSpec (park v : ℚ) : ℚ := max 0 (min park v)

/-- The `Moving` latch: `'no'`, `'lft'`, `'rgt'`. -/
inductive Mv where
  | no
  | lft
  | rgt
deriving DecidableEq

/-- State touched by the motion controller: the latch, `ActualVal` and
`TargetVal`. -/
structure MotionState where
  moving : Mv
  actual : ℚ
  target : ℚ
deriving DecidableEq

/-- `MoveMotor` from the source.  A non-`no` argument overwrites the latch.
If the latch is `no` the call returns without re-arming; otherwise it
computes the candidate position, commits it when both the envelope bound
and the target bound pass, else clears the latch — and in either case
re-arms the timer (`Root.after` runs unconditionally at the end).  The
Bool records whether the timer was re-armed. -/
def MoveMotor (park step : ℚ) (dir : Mv) (s : MotionState) : MotionState × Bool :=
  let s1 := match dir with
    | Mv.no => s
    | d => { s with moving := d }
  match s1.moving with
  | Mv.no => (s1, false)
  | Mv.rgt =>
    let newActual := s1.actual - step
    if newActual ≥ 0 ∧ newActual ≥ s1.target then ({ s1 with actual := newActual }, true)
    else ({ s1 with moving := Mv.no }, true)
  | Mv.lft =>
    let newActual := s1.actual + step
    if newActual ≤ park ∧ newActual ≤ s1.target then ({ s1 with actual := newActual }, true)
    else ({ s1 with moving := Mv.no }, true)

/-- `n` timer ticks of the motion controller (each tick is `MoveMotor`
called by the timer, i.e. with the default direction `'no'`). -/
def MoveMotorRun (park step : ℚ) : ℕ → MotionState → MotionState
  | 0, s => s
  | n + 1, s => MoveMotorRun park step n (MoveMotor park step Mv.no s).1

/-- User-visible dialog messages raised by the keypad handlers. -/
inductive Msg where
  | limitExceeded
  | onlyTwoDecimals
  | invalidKey
deriving DecidableEq

/-- Keypad entry state shared by both variants: the accumulated value is
the global `TargetVal` itself, plus the `DecimalMode` tag. -/
structure PadState where
  val : ℚ
  mode : ℕ
deriving DecidableEq

/-- A Python runtime error escaping a handler; carries the global state
(`TargetVal`, `DecimalMode`) left behind at the raise point. -/
inductive PyErr where
  | attributeError (left : PadState)
deriving DecidableEq

/-- Keys of the millimeter keypad. -/
inductive MMKey where
  | digit (d : ℕ)
  | dot
  | enter
  | blank
  | clear
  | bksp

/-- Keys of the inch keypad (digit labels range over the odd numerators in
fraction mode, so `digit` carries an unrestricted natural). -/
inductive INKey where
  | digit (d : ℕ)
  | half
  | x4
  | x8
  | x16
  | x32
  | x64
  | nextKey
  | prevKey
  | enter
  | blank
  | clear
  | bksp

/-- The commit tail shared verbatim by both key handlers: if the candidate
reaches `PARKLOCATION`, show the limit error and keep the old target,
otherwise commit through `setTarget` when the candidate differs. -/
def commitTail (park origVal cand : ℚ) (mode : ℕ) (msgs : List Msg) :
    PadState × List Msg :=
  if cand ≥ park then (⟨origVal, mode⟩, msgs ++ [Msg.limitExceeded])
  else if origVal ≠ cand then (⟨setTargetVal park origVal cand, mode⟩, msgs)
  else (⟨origVal, mode⟩, msgs)

/-- The branch part of `add_MM_num`: candidate value, new `DecimalMode`,
and messages shown before the commit check.  `Bksp` in `DecimalMode == 1`
raises `AttributeError` (`self.decimalKey` is never assigned) after the
global `DecimalMode` was already reset to 0. -/
def add_MM_branch (k : MMKey) (st : PadState) : Except PyErr (ℚ × ℕ × List Msg) :=
  match k with
  | .dot => .ok (st.val, if st.mode = 0 then 1 else st.mode, [])
  | .enter => .ok (st.val, st.mode, [])
  | .blank => .ok (st.val, st.mode, [])
  | .clear => .ok (0, 0, [])
  | .bksp =>
    if st.mode = 0 then .ok ((pyInt (st.val / 10) : ℚ), 0, [])
    else if st.mode = 1 then .error (PyErr.attributeError ⟨st.val, 0⟩)
    else if st.mode = 2 then .ok ((pyInt st.val : ℚ), 1, [])
    else if st.mode = 3 then .ok ((pyInt (st.val * 10) : ℚ) / 10, 2, [])
    else .ok (st.val, st.mode, [])
  | .digit d =>
    if st.mode = 0 then .ok (((pyInt st.val * 10 + (d : ℤ) : ℤ) : ℚ), 0, [])
    else if st.mode = 1 then .ok (st.val + (d : ℚ) * (1/10), 2, [])
    else if st.mode = 2 then .ok (st.val + (d : ℚ) * (1/100), 3, [])
    else .ok (st.val, st.mode, [Msg.onlyTwoDecimals])

/-- `add_MM_num` from the source: branch on the key, then the shared
commit tail. -/
def add_MM_num (park : ℚ) (k : MMKey) (st : PadState) :
    Except PyErr (PadState × List Msg) :=
  (add_MM_branch k st).map fun x => commitTail park st.val x.1 x.2.1 x.2.2

/-- The branch part of `add_IN_num`: fraction selector keys set
`DecimalMode` to the denominator; a numerator key substitutes
`int(value) + n/d` but does not reset `DecimalMode` (`redrawButtons`
restores the key layout only). -/
def add_IN_branch (k : INKey) (st : PadState) : ℚ × ℕ × List Msg :=
  match k with
  | .half => ((pyInt st.val : ℚ) + 1/2, st.mode, [])
  | .x4 => (st.val, 4, [])
  | .x8 => (st.val, 8, [])
  | .x16 => (st.val, 16, [])
  | .x32 => (st.val, 32, [])
  | .x64 => (st.val, 64, [])
  | .prevKey => (st.val, 64, [])
  | .nextKey => (st.val, 64, [])
  | .enter => (st.val, st.mode, [])
  | .blank => (st.val, st.mode, [])
  | .clear => (0, 0, [])
  | .bksp =>
    if st.mode = 0 then ((pyInt (st.val / 10) : ℚ), 0, [])
    else ((pyInt st.val : ℚ), 0, [])
  | .digit d =>
    if st.mode = 0 then (st.val * 10 + (d : ℚ), 0, [])
    else if st.mode = 4 then ((pyInt st.val : ℚ) + (d : ℚ) / 4, st.mode, [])
    else if st.mode = 8 then ((pyInt st.val : ℚ) + (d : ℚ) / 8, st.mode, [])
    else if st.mode = 16 then ((pyInt st.val : ℚ) + (d : ℚ) / 16, st.mode, [])
    else if st.mode = 32 then ((pyInt st.val : ℚ) + (d : ℚ) / 32, st.mode, [])
    else if st.mode = 64 then ((pyInt st.val : ℚ) + (d : ℚ) / 64, st.mode, [])
    else (st.val, st.mode, [Msg.invalidKey])

/-- `add_IN_num` from the source: branch on the key, then the shared
commit tail. -/
def add_IN_num (park : ℚ) (k : INKey) (st : PadState) : PadState × List Msg :=
  let x := add_IN_branch k st
  commitTail park st.val x.1 x.2.1 x.2.2

/-- A sequence of millimeter keypad key presses, accumulating messages. -/
def runMM (park : ℚ) : List MMKey → PadState → Except PyErr (PadState × List Msg)
  | [], st => .ok (st, [])
  | k :: ks, st =>
    match add_MM_num park k st with
    | .error e => .error e
    | .ok (st1, msgs) =>
      match runMM park ks st1 with
      | .error e => .error e
      | .ok (st2, msgs2) => .ok (st2, msgs ++ msgs2)

/-- Startup value of `ActualVal`. -/
def ActualVal_init : ℚ := 0

/-- Startup value of `TargetVal`: the Python 2 expression `1/PRECISION`
over two ints, i.e. integer (floor) division. -/
def TargetVal_init (precision : ℕ) : ℚ := ((1 / precision : ℕ) : ℚ)

/-- Startup value of `ActualValStr`. -/
def ActualValStr_init (u : UnitMode) : String := numFormat u ActualVal_init

/-- Startup value of `TargetValStr`. -/
def TargetValStr_init (u : UnitMode) (precision : ℕ) : String :=
  numFormat u (TargetVal_init precision)

/-- Startup numerator/denominator pair for the Actual display. -/
def ActualFraction_init (precision : ℕ) : ℤ × ℤ :=
  setPrecision precision ActualVal_init

/-- Startup numerator/denominator pair for the Target display. -/
def TargetFraction_init (precision : ℕ) : ℤ × ℤ :=
  setPrecision precision (TargetVal_init precision)

/-! ### Helper lemmas for the motion controller -/

/-- Peeling one tick at the back of a run. -/
theorem MoveMotorRun_succ_back (park step : ℚ) (n : ℕ) :
    ∀ s : MotionState, MoveMotorRun park step (n + 1) s
      = (MoveMotor park step Mv.no (MoveMotorRun park step n s)).1 := by
  induction n with
  | zero => intro s; rfl
  | succ n ih => intro s; exact ih (MoveMotor park step Mv.no s).1

/-- An idle latch makes the timer tick a no-op that does not re-arm. -/
theorem MoveMotor_idle (park step : ℚ) (t : MotionState) (ht : t.moving = Mv.no) :
    MoveMotor park step Mv.no t = (t, false) := by
  simp [MoveMotor, ht]

/-- One-tick characterization for a leftward latch. -/
theorem MoveMotor_lft (park step : ℚ) (s : MotionState) (hm : s.moving = Mv.lft) :
    MoveMotor park step Mv.no s =
      if s.actual + step ≤ park ∧ s.actual + step ≤ s.target
      then ({ s with actual := s.actual + step }, true)
      else ({ s with moving := Mv.no }, true) := by
  simp [MoveMotor, hm]

/-- One-tick characterization for a rightward latch. -/
theorem MoveMotor_rgt (park step : ℚ) (s : MotionState) (hm : s.moving = Mv.rgt) :
    MoveMotor park step Mv.no s =
      if s.actual - step ≥ 0 ∧ s.actual - step ≥ s.target
      then ({ s with actual := s.actual - step }, true)
      else ({ s with moving := Mv.no }, true) := by
  simp [MoveMotor, hm]

/-- Run invariant for leftward motion: while the latch is `lft` (or already
cleared), the actual position never passes the target nor the park bound,
and the target is never modified by ticks. -/
theorem lft_run_invariant (park step : ℚ) (n : ℕ) :
    ∀ s : MotionState, s.moving ≠ Mv.rgt → s.actual ≤ s.target → s.actual ≤ park →
      (MoveMotorRun park step n s).moving ≠ Mv.rgt ∧
      (MoveMotorRun park step n s).target = s.target ∧
      (MoveMotorRun park step n s).actual ≤ s.target ∧
      (MoveMotorRun park step n s).actual ≤ park := by
  induction n with
  | zero => intro s h1 h2 h3; exact ⟨h1, rfl, h2, h3⟩
  | succ n ih =>
    intro s h1 h2 h3
    rw [show MoveMotorRun park step (n + 1) s
        = MoveMotorRun park step n (MoveMotor park step Mv.no s).1 from rfl]
    cases hm : s.moving with
    | rgt => exact absurd hm h1
    | no =>
      have he : (MoveMotor park step Mv.no s).1 = s := by
        rw [MoveMotor_idle park step s hm]
      rw [he]
      exact ih s h1 h2 h3
    | lft =>
      by_cases hc : s.actual + step ≤ park ∧ s.actual + step ≤ s.target
      · have he : (MoveMotor park step Mv.no s).1 = { s with actual := s.actual + step } := by
          simp [MoveMotor, hm, hc]
        rw [he]
        have := ih { s with actual := s.actual + step }
          (by simp [hm]) (by simpa using hc.2) (by simpa using hc.1)
        simpa using this
      · have he : (MoveMotor park step Mv.no s).1 = { s with moving := Mv.no } := by
          rw [MoveMotor_lft park step s hm, if_neg hc]
        rw [he]
        have := ih { s with moving := Mv.no } (by simp) (by simpa using h2) (by simpa using h3)
        simpa using this

/-- Run invariant for rightward motion: while the latch is `rgt` (or already
cleared), the actual position never passes the target nor zero. -/
theorem rgt_run_invariant (park step : ℚ) (n : ℕ) :
    ∀ s : MotionState, s.moving ≠ Mv.lft → s.target ≤ s.actual → 0 ≤ s.actual →
      (MoveMotorRun park step n s).moving ≠ Mv.lft ∧
      (MoveMotorRun park step n s).target = s.target ∧
      s.target ≤ (MoveMotorRun park step n s).actual ∧
      0 ≤ (MoveMotorRun park step n s).actual := by
  induction n with
  | zero => intro s h1 h2 h3; exact ⟨h1, rfl, h2, h3⟩
  | succ n ih =>
    intro s h1 h2 h3
    rw [show MoveMotorRun park step (n + 1) s
        = MoveMotorRun park step n (MoveMotor park step Mv.no s).1 from rfl]
    cases hm : s.moving with
    | lft => exact absurd hm h1
    | no =>
      have he : (MoveMotor park step Mv.no s).1 = s := by
        rw [MoveMotor_idle park step s hm]
      rw [he]
      exact ih s h1 h2 h3
    | rgt =>
      by_cases hc : s.actual - step ≥ 0 ∧ s.actual - step ≥ s.target
      · have he : (MoveMotor park step Mv.no s).1 = { s with actual := s.actual - step } := by
          rw [MoveMotor_rgt park step s hm, if_pos hc]
        rw [he]
        have := ih { s with actual := s.actual - step }
          (by simp [hm]) (by simpa using hc.2) (by simpa using hc.1)
        simpa using this
      · have he : (MoveMotor park step Mv.no s).1 = { s with moving := Mv.no } := by
          rw [MoveMotor_rgt park step s hm, if_neg hc]
        rw [he]
        have := ih { s with moving := Mv.no } (by simp) (by simpa using h2) (by simpa using h3)
        simpa using this

/-! ### C2 -/

/-- C2: the motion controller never overshoots.  With latch `MovingLeft` and
initially `Actual ≤ Target` and `Actual ≤ ParkLocation`, no number of ticks
produces `Actual > Target` or `Actual > ParkLocation`; symmetrically, with
latch `MovingRight` and initially `Actual ≥ Target` and `Actual ≥ 0`, no
number of ticks produces `Actual < Target` or `Actual < 0`. -/
theorem C2_no_overshoot (park step : ℚ) (s : MotionState) (n : ℕ) :
    (s.moving = Mv.lft → s.actual ≤ s.target → s.actual ≤ park →
      (MoveMotorRun park step n s).actual ≤ s.target ∧
      (MoveMotorRun park step n s).actual ≤ park) ∧
    (s.moving = Mv.rgt → s.target ≤ s.actual → 0 ≤ s.actual →
      s.target ≤ (MoveMotorRun park step n s).actual ∧
      0 ≤ (MoveMotorRun park step n s).actual) := by
  constructor
  · intro h1 h2 h3
    have := lft_run_invariant park step n s (by simp [h1]) h2 h3
    exact ⟨this.2.2.1, this.2.2.2⟩
  · intro h1 h2 h3
    have := rgt_run_invariant park step n s (by simp [h1]) h2 h3
    exact ⟨this.2.2.1, this.2.2.2⟩

/-- Witness for C2 at a concrete input. -/
theorem C2_no_overshoot_witness :
    ((Mv.lft = Mv.lft) ∧ (0:ℚ) ≤ 10 ∧ (0:ℚ) ≤ 96) ∧
    (MoveMotorRun 96 3 7 ⟨Mv.lft, 0, 10⟩).actual ≤ 10 ∧
    (MoveMotorRun 96 3 7 ⟨Mv.lft, 0, 10⟩).actual ≤ 96 :=
  ⟨⟨rfl, by norm_num, by norm_num⟩,
    (C2_no_overshoot 96 3 ⟨Mv.lft, 0, 10⟩ 7).1 rfl (by norm_num) (by norm_num)⟩

/-! ### C1 -/

/-- C1 fails as stated: with `stepSize = 3`, starting from `Actual = 0`,
`Target = 10`, latch `MovingLeft` on envelope `[0, 96]`, the controller
self-stops after repeated ticks at `Actual = 9`, which is neither the
target nor an envelope bound, and further ticks leave the state fixed. -/
theorem C1_counterexample :
    (MoveMotorRun 96 3 20 ⟨Mv.lft, 0, 10⟩).actual = 9 ∧
    (MoveMotorRun 96 3 20 ⟨Mv.lft, 0, 10⟩).moving = Mv.no ∧
    MoveMotor 96 3 Mv.no (MoveMotorRun 96 3 20 ⟨Mv.lft, 0, 10⟩)
      = (MoveMotorRun 96 3 20 ⟨Mv.lft, 0, 10⟩, false) ∧
    (9 : ℚ) ≠ 10 ∧ (9 : ℚ) ≠ 0 ∧ (9 : ℚ) ≠ 96 := by
  norm_num [MoveMotorRun, MoveMotor]

/-- C1 (amended): for every `stepSize > 0` that divides the distance to the
target (`Target = n·stepSize`, as holds for the shipped `stepSize = 1/64`
and `Target = 10`), starting from `Actual = 0` with the latch `MovingLeft`
and `Target ≤ ParkLocation`, the controller reaches `Actual = Target`
exactly and self-stops, without needing to predict the step count. -/
theorem C1_exact_stop (park step : ℚ) (n : ℕ) (target : ℚ)
    (hstep : 0 < step) (ht : target = n * step) (hpark : target ≤ park) :
    MoveMotorRun park step (n + 1) ⟨Mv.lft, 0, target⟩ = ⟨Mv.no, target, target⟩ := by
  have key : ∀ k : ℕ, k ≤ n → MoveMotorRun park step k ⟨Mv.lft, 0, target⟩
      = ⟨Mv.lft, (k : ℚ) * step, target⟩ := by
    intro k
    induction k with
    | zero => intro _; simp [MoveMotorRun]
    | succ k ihk =>
      intro hk
      have hk' : k ≤ n := Nat.le_of_succ_le hk
      have hkq : ((k : ℚ) + 1) * step ≤ target := by
        rw [ht]
        have : ((k : ℚ) + 1) ≤ (n : ℚ) := by exact_mod_cast hk
        nlinarith
      have hcond : (k : ℚ) * step + step ≤ park ∧ (k : ℚ) * step + step ≤ target :=
        ⟨by nlinarith, by nlinarith⟩
      rw [MoveMotorRun_succ_back, ihk hk']
      have he : MoveMotor park step Mv.no ⟨Mv.lft, (k : ℚ) * step, target⟩
          = (⟨Mv.lft, (k : ℚ) * step + step, target⟩, true) := by
        simp [MoveMotor, hcond]
      rw [he]
      push_cast
      ring_nf
  have hfail : ¬((n : ℚ) * step + step ≤ park ∧ (n : ℚ) * step + step ≤ target) := by
    rintro ⟨-, h2⟩
    rw [ht] at h2
    linarith
  rw [MoveMotorRun_succ_back, key n le_rfl,
    MoveMotor_lft park step ⟨Mv.lft, (n : ℚ) * step, target⟩ rfl]
  rw [if_neg (by simpa using hfail)]
  simp [ht]

/-- Witness for the amended C1 at a concrete input. -/
theorem C1_exact_stop_witness :
    (0:ℚ) < 2 ∧ (10:ℚ) = (5:ℕ) * 2 ∧ (10:ℚ) ≤ 96 ∧
    MoveMotorRun 96 2 6 ⟨Mv.lft, 0, 10⟩ = ⟨Mv.no, 10, 10⟩ :=
  ⟨by norm_num, by norm_num, by norm_num,
    C1_exact_stop 96 2 5 10 (by norm_num) (by norm_num) (by norm_num)⟩

/-! ### C7 -/

/-- C7 fails as stated: on the tick in which the bound/target check fails
(here `Actual = Target = 0`, latch `MovingLeft`, so the candidate `1`
overshoots), the latch does self-reset to Idle, but the tick still
schedules a further tick (the re-arm flag is `true`). -/
theorem C7_counterexample :
    MoveMotor 96 1 Mv.no ⟨Mv.lft, 0, 0⟩ = (⟨Mv.no, 0, 0⟩, true) := by
  norm_num [MoveMotor]

/-- C7 (amended): a tick with a live latch always re-arms the timer — also
the tick whose check fails and resets the latch to Idle; the single extra
tick thus scheduled observes the Idle latch, changes nothing and does not
re-arm, so the controller stops one no-op tick after motion completes. -/
theorem C7_rearm_once (park step : ℚ) (s : MotionState) (hmv : s.moving ≠ Mv.no) :
    (MoveMotor park step Mv.no s).2 = true ∧
    ((MoveMotor park step Mv.no s).1.moving = Mv.no →
      MoveMotor park step Mv.no (MoveMotor park step Mv.no s).1
        = ((MoveMotor park step Mv.no s).1, false)) ∧
    (∀ t : MotionState, t.moving = Mv.no → MoveMotor park step Mv.no t = (t, false)) := by
  refine ⟨?_, fun hno => MoveMotor_idle park step _ hno, fun t ht => MoveMotor_idle park step t ht⟩
  cases hm : s.moving with
  | no => exact absurd hm hmv
  | lft =>
    by_cases hc : s.actual + step ≤ park ∧ s.actual + step ≤ s.target
    · simp [MoveMotor, hm, hc]
    · simp [MoveMotor, hm, hc]
  | rgt =>
    by_cases hc : s.actual - step ≥ 0 ∧ s.actual - step ≥ s.target
    · rw [MoveMotor_rgt park step s hm, if_pos hc]
    · rw [MoveMotor_rgt park step s hm, if_neg hc]

/-- Witness for the amended C7 at a concrete input. -/
theorem C7_rearm_once_witness :
    (⟨Mv.lft, 0, 0⟩ : MotionState).moving ≠ Mv.no ∧
    (MoveMotor 96 1 Mv.no ⟨Mv.lft, 0, 0⟩).2 = true :=
  ⟨by simp, (C7_rearm_once 96 1 ⟨Mv.lft, 0, 0⟩ (by simp)).1⟩

/-! ### Helper lemmas for `setTarget` -/

/-- The two clamping ifs at the head of `setTarget` compute the clamp of
`value` into `[0, ParkLocation]` whenever the park location is sane. -/
theorem setTarget_clamp_eq (park v : ℚ) (hpark : 0 ≤ park) :
    (if (if v ≤ 0 then 0 else v) ≥ park then park else if v ≤ 0 then 0 else v)
      = clampSpec park v := by
  unfold clampSpec
  by_cases h1 : v ≤ 0
  · rw [if_pos h1]
    have hmin : min park v = v := min_eq_right (h1.trans hpark)
    by_cases h2 : (0 : ℚ) ≥ park
    · rw [if_pos h2, hmin, max_eq_left h1, le_antisymm h2 hpark]
    · rw [if_neg h2, hmin, max_eq_left h1]
  · rw [if_neg h1]
    push_neg at h1
    by_cases h2 : v ≥ park
    · rw [if_pos h2, min_eq_left h2, max_eq_right hpark]
    · rw [if_neg h2]
      push_neg at h2
      rw [min_eq_right h2.le, max_eq_right h1.le]

/-- The value stored by the full `setTarget` is `setTargetVal`. -/
theorem setTarget_val (u : UnitMode) (prec : ℕ) (park : ℚ) (st : TargetState) (v : ℚ) :
    (setTarget u prec park st v).val = setTargetVal park st.val v := by
  unfold setTarget setTargetVal
  by_cases h : (if (if v ≤ 0 then 0 else v) ≥ park then park else if v ≤ 0 then 0 else v) = st.val
  · rw [if_pos h, if_pos h]
  · rw [if_neg h, if_neg h]

/-- `setTargetVal` is exactly the clamp into `[0, ParkLocation]`. -/
theorem setTargetVal_eq_clamp (park v t : ℚ) (hpark : 0 ≤ park) :
    setTargetVal park t v = clampSpec park v := by
  have hc := setTarget_clamp_eq park v hpark
  unfold setTargetVal
  by_cases h : (if (if v ≤ 0 then 0 else v) ≥ park then park else if v ≤ 0 then 0 else v) = t
  · rw [if_pos h, ← h]
    exact hc
  · rw [if_neg h]
    exact hc

/-! ### C4 -/

/-- C4: for every value `v`, `setTarget v` stores the clamp of `v` into
`[0, ParkLocation]`; applying it twice with the same value equals applying
it once (clamp idempotence); and when the clamped value equals the current
target the call is a no-op leaving the whole target state (value, display
string, fraction pair) unchanged. -/
theorem C4_setTarget_clamp (u : UnitMode) (prec : ℕ) (park : ℚ) (hpark : 0 ≤ park) :
    (∀ (st : TargetState) (v : ℚ), (setTarget u prec park st v).val = clampSpec park v) ∧
    (∀ (st : TargetState) (v : ℚ),
      setTarget u prec park (setTarget u prec park st v) v = setTarget u prec park st v) ∧
    (∀ (st : TargetState) (v : ℚ), clampSpec park v = st.val → setTarget u prec park st v = st) := by
  have hval : ∀ (st : TargetState) (v : ℚ), (setTarget u prec park st v).val = clampSpec park v := by
    intro st v
    rw [setTarget_val, setTargetVal_eq_clamp park v st.val hpark]
  have hnoop : ∀ (st : TargetState) (v : ℚ), clampSpec park v = st.val →
      setTarget u prec park st v = st := by
    intro st v h
    unfold setTarget
    rw [if_pos ((setTarget_clamp_eq park v hpark).trans h)]
  refine ⟨hval, ?_, hnoop⟩
  intro st v
  exact hnoop _ v (hval st v).symm

/-- Witness for C4 at the spec's concrete inputs: envelope `[0, 96]`,
`setTarget (-5)` yields `0`, `setTarget 200` yields `96`, and the second
application with the same out-of-range value changes nothing. -/
theorem C4_witness :
    (0 : ℚ) ≤ 96 ∧
    (setTarget UnitMode.MM 16 96 ⟨7, "", 0, 1⟩ (-5)).val = 0 ∧
    (setTarget UnitMode.MM 16 96 ⟨7, "", 0, 1⟩ 200).val = 96 ∧
    setTarget UnitMode.MM 16 96 (setTarget UnitMode.MM 16 96 ⟨7, "", 0, 1⟩ 200) 200
      = setTarget UnitMode.MM 16 96 ⟨7, "", 0, 1⟩ 200 := by
  have h := C4_setTarget_clamp UnitMode.MM 16 96 (by norm_num)
  exact ⟨by norm_num,
    (h.1 ⟨7, "", 0, 1⟩ (-5)).trans (by norm_num [clampSpec]),
    (h.1 ⟨7, "", 0, 1⟩ 200).trans (by norm_num [clampSpec]),
    h.2.1 ⟨7, "", 0, 1⟩ 200⟩

/-! ### Helper lemmas for `setPrecision` -/

/-- `pyInt` is the floor on nonnegative arguments. -/
theorem pyInt_of_nonneg (q : ℚ) (h : 0 ≤ q) : pyInt q = ⌊q⌋ := by
  unfold pyInt
  rw [if_pos h]

/-- `pyRound` is `⌊x + 1/2⌋` on nonnegative arguments. -/
theorem pyRound_of_nonneg (q : ℚ) (h : 0 ≤ q) : pyRound q = ⌊q + 1/2⌋ := by
  unfold pyRound
  rw [if_pos h]

/-- `⌊x + 1/2⌋` is a nearest integer to `x`. -/
theorem floor_add_half_nearest (x : ℚ) (j : ℤ) :
    |(⌊x + 1/2⌋ : ℚ) - x| ≤ |(j : ℚ) - x| := by
  have h1 : (⌊x + 1/2⌋ : ℚ) ≤ x + 1/2 := Int.floor_le _
  have h2 : x + 1/2 < (⌊x + 1/2⌋ : ℚ) + 1 := Int.lt_floor_add_one _
  have hm : |(⌊x + 1/2⌋ : ℚ) - x| ≤ 1/2 := abs_le.mpr ⟨by linarith, by linarith⟩
  rcases eq_or_ne j ⌊x + 1/2⌋ with rfl | hne
  · exact le_rfl
  · have h4 : (1 : ℤ) ≤ |j - ⌊x + 1/2⌋| := Int.one_le_abs (sub_ne_zero.mpr hne)
    have hj : (1 : ℚ) ≤ |(j : ℚ) - (⌊x + 1/2⌋ : ℚ)| := by exact_mod_cast h4
    have htr : |(j : ℚ) - (⌊x + 1/2⌋ : ℚ)| ≤ |(j : ℚ) - x| + |x - (⌊x + 1/2⌋ : ℚ)| :=
      abs_sub_le _ _ _
    have hxm : |x - (⌊x + 1/2⌋ : ℚ)| ≤ 1/2 := by rwa [abs_sub_comm]
    linarith

/-- Unfolding `setPrecision` when the fractional part is nonzero. -/
theorem setPrecision_of_ne (p : ℕ) (v : ℚ) (h : v - (pyInt v : ℚ) ≠ 0) :
    setPrecision p v =
      (((pyRound ((v - (pyInt v : ℚ)) * p) : ℚ) / (p : ℚ)).num,
        ((((pyRound ((v - (pyInt v : ℚ)) * p) : ℚ) / (p : ℚ)).den : ℤ))) := by
  simp only [setPrecision]
  rw [if_neg h]

/-! ### C5 -/

/-- C5: for every supported precision and every `v ≥ 0`, `setPrecision`
returns `(0, precision)` when the fractional part is zero, and otherwise a
reduced fraction (coprime numerator/denominator, positive denominator)
whose value is a multiple of `1/precision` nearest to the fractional part;
in particular, for every `k < precision`, `setPrecision (k/precision)`
returns a fraction of value exactly `k/precision`, in lowest terms for
`k ≠ 0` and `(0, precision)` for `k = 0`. -/
theorem C5_toFraction (p : ℕ) (hp : p ∈ ([4, 8, 16, 32, 64] : List ℕ)) (v : ℚ) (hv : 0 ≤ v) :
    (v - (pyInt v : ℚ) = 0 → setPrecision p v = (0, (p : ℤ))) ∧
    (v - (pyInt v : ℚ) ≠ 0 →
      (setPrecision p v).1.natAbs.Coprime (setPrecision p v).2.natAbs ∧
      0 < (setPrecision p v).2 ∧
      (∃ m : ℤ, ((setPrecision p v).1 : ℚ) / ((setPrecision p v).2 : ℚ) = (m : ℚ) / (p : ℚ) ∧
        ∀ j : ℤ, |((setPrecision p v).1 : ℚ) / ((setPrecision p v).2 : ℚ) - (v - (pyInt v : ℚ))|
          ≤ |(j : ℚ) / (p : ℚ) - (v - (pyInt v : ℚ))|)) ∧
    (∀ k : ℕ, k < p →
      ((setPrecision p ((k : ℚ) / (p : ℚ))).1 : ℚ) / ((setPrecision p ((k : ℚ) / (p : ℚ))).2 : ℚ)
        = (k : ℚ) / (p : ℚ) ∧
      (k ≠ 0 → (setPrecision p ((k : ℚ) / (p : ℚ))).1.natAbs.Coprime
        (setPrecision p ((k : ℚ) / (p : ℚ))).2.natAbs) ∧
      (k = 0 → setPrecision p ((k : ℚ) / (p : ℚ)) = (0, (p : ℤ)))) := by
  have hp0 : 0 < p := by
    simp only [List.mem_cons, List.not_mem_nil, or_false] at hp
    rcases hp with rfl | rfl | rfl | rfl | rfl <;> norm_num
  have hp0' : (0 : ℚ) < (p : ℚ) := by exact_mod_cast hp0
  have hpne : (p : ℚ) ≠ 0 := ne_of_gt hp0'
  refine ⟨?_, ?_, ?_⟩
  · intro h
    simp [setPrecision, h]
  · intro h
    have hfl : pyInt v = ⌊v⌋ := pyInt_of_nonneg v hv
    have hd0 : 0 ≤ v - (pyInt v : ℚ) := by
      rw [hfl]
      have := Int.floor_le v
      linarith
    rw [setPrecision_of_ne p v h]
    set r : ℚ := ((pyRound ((v - (pyInt v : ℚ)) * p) : ℚ) / (p : ℚ)) with hr
    refine ⟨by simpa using r.reduced, ?_, ?_⟩
    · show (0 : ℤ) < (r.den : ℤ)
      exact_mod_cast r.den_pos
    refine ⟨pyRound ((v - (pyInt v : ℚ)) * p), ?_, ?_⟩
    · push_cast
      rw [Rat.num_div_den]
    · intro j
      push_cast
      rw [Rat.num_div_den, hr]
      have hrd : pyRound ((v - (pyInt v : ℚ)) * p) = ⌊(v - (pyInt v : ℚ)) * p + 1/2⌋ :=
        pyRound_of_nonneg _ (by positivity)
      rw [hrd]
      have key := floor_add_half_nearest ((v - (pyInt v : ℚ)) * p) j
      have e : ∀ z : ℤ, (z : ℚ) / (p : ℚ) - (v - (pyInt v : ℚ))
          = ((z : ℚ) - (v - (pyInt v : ℚ)) * p) / (p : ℚ) := by
        intro z
        field_simp
        ring
      rw [e, e, abs_div, abs_div, abs_of_pos hp0']
      gcongr
  · intro k hk
    rcases Nat.eq_zero_or_pos k with rfl | hkpos
    · have hz : (0 : ℚ) - (pyInt 0 : ℚ) = 0 := by
        rw [pyInt_of_nonneg 0 le_rfl]
        norm_num
      refine ⟨?_, fun hne0 => absurd rfl hne0, fun _ => ?_⟩ <;>
        simp [setPrecision, hz]
    · have hkq : (0 : ℚ) < (k : ℚ) := by exact_mod_cast hkpos
      have hlt : (k : ℚ) / (p : ℚ) < 1 := by
        rw [div_lt_one hp0']
        exact_mod_cast hk
      have hfl : pyInt ((k : ℚ) / (p : ℚ)) = 0 := by
        rw [pyInt_of_nonneg _ (by positivity)]
        rw [Int.floor_eq_zero_iff]
        exact ⟨by positivity, hlt⟩
      have hne : (k : ℚ) / (p : ℚ) - (pyInt ((k : ℚ) / (p : ℚ)) : ℚ) ≠ 0 := by
        rw [hfl]
        push_cast
        rw [sub_zero]
        positivity
      have harg : ((k : ℚ) / (p : ℚ) - (pyInt ((k : ℚ) / (p : ℚ)) : ℚ)) * (p : ℚ) = (k : ℚ) := by
        rw [hfl]
        push_cast
        rw [sub_zero, div_mul_cancel₀ _ hpne]
      have hpr : pyRound ((k : ℚ)) = (k : ℤ) := by
        rw [pyRound_of_nonneg _ (by positivity), add_comm, Int.floor_add_nat]
        norm_num
      rw [setPrecision_of_ne p _ hne, harg, hpr]
      refine ⟨?_, fun _ => ?_, fun h0 => absurd h0 (Nat.pos_iff_ne_zero.mp hkpos)⟩
      · push_cast
        rw [Rat.num_div_den]
      · simpa using (((k : ℤ) : ℚ) / (p : ℚ)).reduced

/-- Witness for C5: precision 16 and `v = 1/2`; in particular the
round-trip at `k = 8` gives a fraction of value `8/16 = 1/2`. -/
theorem C5_toFraction_witness :
    ((16 : ℕ) ∈ ([4, 8, 16, 32, 64] : List ℕ)) ∧ (0 : ℚ) ≤ 1/2 ∧
    ((setPrecision 16 ((8 : ℚ) / (16 : ℚ))).1 : ℚ)
      / ((setPrecision 16 ((8 : ℚ) / (16 : ℚ))).2 : ℚ) = (8 : ℚ) / (16 : ℚ) :=
  ⟨by norm_num, by norm_num,
    ((C5_toFraction 16 (by norm_num) (1/2) (by norm_num)).2.2 8 (by norm_num)).1⟩

/-! ### Helper lemmas for the keypad commit tail -/

/-- Case analysis of the shared commit tail behind `add_MM_num`. -/
theorem add_MM_num_cases (park : ℚ) (st : PadState) (k : MMKey) (c : ℚ) (m : ℕ)
    (msgs : List Msg) (hbr : add_MM_branch k st = .ok (c, m, msgs)) :
    (park ≤ c → add_MM_num park k st = .ok (⟨st.val, m⟩, msgs ++ [Msg.limitExceeded])) ∧
    (c < park → st.val ≠ c →
      add_MM_num park k st = .ok (⟨setTargetVal park st.val c, m⟩, msgs)) ∧
    (c < park → st.val = c → add_MM_num park k st = .ok (⟨st.val, m⟩, msgs)) := by
  have hnum : add_MM_num park k st = .ok (commitTail park st.val c m msgs) := by
    unfold add_MM_num
    rw [hbr]
    rfl
  refine ⟨fun hge => ?_, fun hlt hne => ?_, fun hlt heq => ?_⟩
  · rw [hnum]
    unfold commitTail
    rw [if_pos hge]
  · rw [hnum]
    unfold commitTail
    rw [if_neg (not_le.mpr hlt), if_pos hne]
  · rw [hnum]
    unfold commitTail
    rw [if_neg (not_le.mpr hlt), if_neg (not_ne_iff.mpr heq)]

/-- Case analysis of the shared commit tail behind `add_IN_num`. -/
theorem add_IN_num_cases (park : ℚ) (st : PadState) (k : INKey) :
    (park ≤ (add_IN_branch k st).1 →
      add_IN_num park k st = (⟨st.val, (add_IN_branch k st).2.1⟩,
        (add_IN_branch k st).2.2 ++ [Msg.limitExceeded])) ∧
    ((add_IN_branch k st).1 < park → st.val ≠ (add_IN_branch k st).1 →
      add_IN_num park k st
        = (⟨setTargetVal park st.val (add_IN_branch k st).1, (add_IN_branch k st).2.1⟩,
          (add_IN_branch k st).2.2)) ∧
    ((add_IN_branch k st).1 < park → st.val = (add_IN_branch k st).1 →
      add_IN_num park k st = (⟨st.val, (add_IN_branch k st).2.1⟩, (add_IN_branch k st).2.2)) := by
  refine ⟨fun hge => ?_, fun hlt hne => ?_, fun hlt heq => ?_⟩
  · unfold add_IN_num commitTail
    rw [if_pos hge]
  · unfold add_IN_num commitTail
    rw [if_neg (not_le.mpr hlt), if_pos hne]
  · unfold add_IN_num commitTail
    rw [if_neg (not_le.mpr hlt), if_neg (not_ne_iff.mpr heq)]

/-- Committing a strictly positive candidate strictly below the park bound
and different from the current target stores the candidate unchanged. -/
theorem setTargetVal_of_lt (park t c : ℚ) (h0 : 0 < c) (hp : c < park) (hne : c ≠ t) :
    setTargetVal park t c = c := by
  unfold setTargetVal
  rw [if_neg (not_le.mpr h0)]
  dsimp only
  rw [if_neg (not_le.mpr hp), if_neg hne]

/-! ### C6 -/

/-- C6 fails as stated: the keypad accumulator comprises the pending value
and the `DecimalMode` tag, and a rejected key can still advance the tag.
With `ParkLocation = 95.95` and `TargetVal = 95.9` in `DecimalMode = 2`
(reachable by keys `9`, `5`, `.`, `9`), pressing digit `9` gives candidate
`95.99 ≥ 95.95`, which is rejected with `LimitExceeded` — yet
`DecimalMode` becomes `3` instead of staying `2`: the branch advances the
mode before the limit check and the rejection never rolls it back. -/
theorem C6_counterexample :
    add_MM_num (9595/100) (MMKey.digit 9) ⟨959/10, 2⟩
      = .ok (⟨959/10, 3⟩, [Msg.limitExceeded]) ∧
    (⟨959/10, 2⟩ : PadState).mode ≠ 3 := by
  constructor
  · norm_num [add_MM_num, add_MM_branch, commitTail, Except.map]
  · norm_num

/-- C6 (amended): in both keypad variants, after computing a candidate
value, a candidate at or above `ParkLocation` makes the handler raise the
`LimitExceeded` error and leave the stored target value (the accumulated
value itself) unchanged — though the `DecimalMode` tag, already advanced
by the key branch, is not rolled back — while a candidate below the bound
that differs from the current target is committed through `setTarget`. -/
theorem C6_limit_check (park : ℚ) (st : PadState) :
    (∀ (k : MMKey) (c : ℚ) (m : ℕ) (msgs : List Msg),
      add_MM_branch k st = .ok (c, m, msgs) →
      (c ≥ park → add_MM_num park k st = .ok (⟨st.val, m⟩, msgs ++ [Msg.limitExceeded])) ∧
      (c < park → c ≠ st.val →
        add_MM_num park k st = .ok (⟨setTargetVal park st.val c, m⟩, msgs))) ∧
    (∀ k : INKey,
      ((add_IN_branch k st).1 ≥ park →
        add_IN_num park k st = (⟨st.val, (add_IN_branch k st).2.1⟩,
          (add_IN_branch k st).2.2 ++ [Msg.limitExceeded])) ∧
      ((add_IN_branch k st).1 < park → (add_IN_branch k st).1 ≠ st.val →
        add_IN_num park k st
          = (⟨setTargetVal park st.val (add_IN_branch k st).1, (add_IN_branch k st).2.1⟩,
            (add_IN_branch k st).2.2))) := by
  constructor
  · intro k c m msgs hbr
    have h := add_MM_num_cases park st k c m msgs hbr
    exact ⟨h.1, fun hlt hne => h.2.1 hlt (Ne.symm hne)⟩
  · intro k
    have h := add_IN_num_cases park st k
    exact ⟨h.1, fun hlt hne => h.2.1 hlt (Ne.symm hne)⟩

/-- Witness for C6: park 96, current target 95, digit 7 gives candidate
957 ≥ 96 in both variants, which is rejected leaving the target at 95. -/
theorem C6_limit_check_witness :
    ((957 : ℚ) ≥ 96 ∧
      add_MM_num 96 (MMKey.digit 7) ⟨95, 0⟩ = .ok (⟨95, 0⟩, [Msg.limitExceeded])) ∧
    ((add_IN_branch (INKey.digit 7) ⟨95, 0⟩).1 ≥ 96 ∧
      add_IN_num 96 (INKey.digit 7) ⟨95, 0⟩ = (⟨95, 0⟩, [Msg.limitExceeded])) := by
  have hbr : add_MM_branch (MMKey.digit 7) ⟨95, 0⟩ = .ok (957, 0, []) := by
    norm_num [add_MM_branch, pyInt]
  have hge : (add_IN_branch (INKey.digit 7) ⟨95, 0⟩).1 ≥ 96 := by
    norm_num [add_IN_branch]
  refine ⟨⟨by norm_num, ?_⟩, hge, ?_⟩
  · exact ((C6_limit_check 96 ⟨95, 0⟩).1 (MMKey.digit 7) 957 0 [] hbr).1 (by norm_num)
  · rw [((C6_limit_check 96 ⟨95, 0⟩).2 (INKey.digit 7)).1 hge]
    norm_num [add_IN_branch]

/-! ### C8 -/

/-- C8: millimeter keypad entry.  From accumulator `0` in whole-number
mode, the keys `1`, `2`, `3` accumulate by decimal left-shift to `123`,
then `.` enters decimal mode and `5` gives `123.5` (= `247/2`) with
`DecimalMode` at `2`; and in the terminal mode `3` any further digit is
rejected with the two-decimals-maximum error, leaving the accumulated
value unchanged. -/
theorem C8_mm_entry (park : ℚ) (hpark : (247 : ℚ)/2 < park) :
    runMM park [MMKey.digit 1, MMKey.digit 2, MMKey.digit 3, MMKey.dot, MMKey.digit 5] ⟨0, 0⟩
      = .ok (⟨247/2, 2⟩, []) ∧
    (∀ (st : PadState) (d : ℕ), st.mode = 3 →
      ∃ ms : List Msg, add_MM_num park (MMKey.digit d) st
        = .ok (⟨st.val, 3⟩, Msg.onlyTwoDecimals :: ms)) := by
  constructor
  · have hbr1 : add_MM_branch (MMKey.digit 1) ⟨0, 0⟩ = .ok (1, 0, []) := by
      norm_num [add_MM_branch, pyInt]
    have s1 : add_MM_num park (MMKey.digit 1) ⟨0, 0⟩ = .ok (⟨1, 0⟩, []) := by
      have h := (add_MM_num_cases park ⟨0, 0⟩ _ _ _ _ hbr1).2.1 (by linarith) (by norm_num)
      rwa [setTargetVal_of_lt park 0 1 (by norm_num) (by linarith) (by norm_num)] at h
    have hbr2 : add_MM_branch (MMKey.digit 2) ⟨1, 0⟩ = .ok (12, 0, []) := by
      norm_num [add_MM_branch, pyInt]
    have s2 : add_MM_num park (MMKey.digit 2) ⟨1, 0⟩ = .ok (⟨12, 0⟩, []) := by
      have h := (add_MM_num_cases park ⟨1, 0⟩ _ _ _ _ hbr2).2.1 (by linarith) (by norm_num)
      rwa [setTargetVal_of_lt park 1 12 (by norm_num) (by linarith) (by norm_num)] at h
    have hbr3 : add_MM_branch (MMKey.digit 3) ⟨12, 0⟩ = .ok (123, 0, []) := by
      norm_num [add_MM_branch, pyInt]
    have s3 : add_MM_num park (MMKey.digit 3) ⟨12, 0⟩ = .ok (⟨123, 0⟩, []) := by
      have h := (add_MM_num_cases park ⟨12, 0⟩ _ _ _ _ hbr3).2.1 (by linarith) (by norm_num)
      rwa [setTargetVal_of_lt park 12 123 (by norm_num) (by linarith) (by norm_num)] at h
    have hbr4 : add_MM_branch MMKey.dot ⟨123, 0⟩ = .ok (123, 1, []) := by
      norm_num [add_MM_branch]
    have s4 : add_MM_num park MMKey.dot ⟨123, 0⟩ = .ok (⟨123, 1⟩, []) :=
      (add_MM_num_cases park ⟨123, 0⟩ _ _ _ _ hbr4).2.2 (by linarith) rfl
    have hbr5 : add_MM_branch (MMKey.digit 5) ⟨123, 1⟩ = .ok (247/2, 2, []) := by
      norm_num [add_MM_branch]
    have s5 : add_MM_num park (MMKey.digit 5) ⟨123, 1⟩ = .ok (⟨247/2, 2⟩, []) := by
      have h := (add_MM_num_cases park ⟨123, 1⟩ _ _ _ _ hbr5).2.1 hpark (by norm_num)
      rwa [setTargetVal_of_lt park 123 (247/2) (by norm_num) hpark (by norm_num)] at h
    simp [runMM, s1, s2, s3, s4, s5]
  · intro st d h3
    have hbr : add_MM_branch (MMKey.digit d) st = .ok (st.val, 3, [Msg.onlyTwoDecimals]) := by
      simp [add_MM_branch, h3]
    by_cases hge : park ≤ st.val
    · exact ⟨[Msg.limitExceeded], (add_MM_num_cases park st _ _ _ _ hbr).1 hge⟩
    · push_neg at hge
      exact ⟨[], (add_MM_num_cases park st _ _ _ _ hbr).2.2 hge rfl⟩

/-- Witness for C8 at park 200. -/
theorem C8_mm_entry_witness :
    (247 : ℚ)/2 < 200 ∧
    runMM 200 [MMKey.digit 1, MMKey.digit 2, MMKey.digit 3, MMKey.dot, MMKey.digit 5] ⟨0, 0⟩
      = .ok (⟨247/2, 2⟩, []) :=
  ⟨by norm_num, (C8_mm_entry 200 (by norm_num)).1⟩

/-! ### C9 -/

/-- C9 is contradicted by the code: `Bksp` in the millimeter keypad with
`DecimalMode == 1` executes `self.btns[self.decimalKey]`, but `decimalKey`
is never assigned anywhere in the class (the `'.'` handler colors
`self.btns[11]` directly), so the handler raises `AttributeError` instead
of unwinding; the commit tail is never reached.  The escaping state keeps
the old target value with `DecimalMode` already reset to `0`. -/
theorem C9_backspace_crash (park v : ℚ) :
    add_MM_num park MMKey.bksp ⟨v, 1⟩ = .error (PyErr.attributeError ⟨v, 0⟩) := by
  simp [add_MM_num, add_MM_branch, Except.map]

/-! ### C3 -/

/-- C3 is contradicted by the code: in inch mode at precision 16, from
whole number 12, selecting `x/16` and then numerator `5` does set the
value to `12 + 5/16 = 12.3125` (= `197/16`), but `DecimalMode` stays `16`
instead of returning to `0` (`redrawButtons` restores the key layout
without resetting `DecimalMode`), so a following digit `3` performs
another fraction substitution (`12 + 3/16 = 12.1875`) rather than
whole-number left-shift accumulation. -/
theorem C3_fraction_mode_not_reset :
    add_IN_num 96 INKey.x16 ⟨12, 0⟩ = (⟨12, 16⟩, []) ∧
    add_IN_num 96 (INKey.digit 5) ⟨12, 16⟩ = (⟨197/16, 16⟩, []) ∧
    (add_IN_num 96 (INKey.digit 5) ⟨12, 16⟩).1.mode ≠ 0 ∧
    add_IN_num 96 (INKey.digit 3) ⟨197/16, 16⟩ = (⟨195/16, 16⟩, []) := by
  refine ⟨?_, ?_, ?_, ?_⟩ <;>
    norm_num [add_IN_num, add_IN_branch, commitTail, setTargetVal, pyInt]

/-! ### C10 -/

/-- C10: at startup `ActualVal` is `0.0` and `TargetVal` is the Python 2
integer division `1/PRECISION`, which is `0` for every supported
precision; both initial positions lie in `[0, ParkLocation]`, and both
initial display representations equal the formatter applied to `0`
(`numFormat` for the strings, `setPrecision`, which yields
`(0, precision)`, for the fraction pairs). -/
theorem C10_initial_state (p : ℕ) (hp : p ∈ ([4, 8, 16, 32, 64] : List ℕ)) (park : ℚ)
    (hpark : 0 ≤ park) :
    TargetVal_init p = 0 ∧ ActualVal_init = 0 ∧
    0 ≤ TargetVal_init p ∧ TargetVal_init p ≤ park ∧
    0 ≤ ActualVal_init ∧ ActualVal_init ≤ park ∧
    (∀ u : UnitMode, TargetValStr_init u p = numFormat u 0 ∧
      ActualValStr_init u = numFormat u 0) ∧
    TargetFraction_init p = setPrecision p 0 ∧ TargetFraction_init p = (0, (p : ℤ)) ∧
    ActualFraction_init p = setPrecision p 0 ∧ ActualFraction_init p = (0, (p : ℤ)) := by
  have h1 : (1 / p : ℕ) = 0 := by
    simp only [List.mem_cons, List.not_mem_nil, or_false] at hp
    rcases hp with rfl | rfl | rfl | rfl | rfl <;> norm_num
  have ht : TargetVal_init p = 0 := by
    unfold TargetVal_init
    rw [h1]
    norm_num
  have hz : (0 : ℚ) - (pyInt 0 : ℚ) = 0 := by
    rw [pyInt_of_nonneg 0 le_rfl]
    norm_num
  have hsp : setPrecision p 0 = (0, (p : ℤ)) := by
    simp [setPrecision, hz]
  refine ⟨ht, rfl, by rw [ht], by rw [ht]; exact hpark, le_rfl, hpark, ?_, ?_, ?_, ?_, ?_⟩
  · intro u
    unfold TargetValStr_init ActualValStr_init ActualVal_init
    rw [ht]
    exact ⟨rfl, rfl⟩
  · unfold TargetFraction_init
    rw [ht]
  · unfold TargetFraction_init
    rw [ht, hsp]
  · rfl
  · unfold ActualFraction_init ActualVal_init
    rw [hsp]

/-- Witness for C10 at precision 16 on envelope `[0, 96]`. -/
theorem C10_initial_state_witness :
    ((16 : ℕ) ∈ ([4, 8, 16, 32, 64] : List ℕ)) ∧ (0 : ℚ) ≤ 96 ∧
    TargetVal_init 16 = 0 ∧ ActualVal_init = 0 ∧ TargetFraction_init 16 = (0, (16 : ℤ)) := by
  have h := C10_initial_state 16 (by norm_num) 96 (by norm_num)
  exact ⟨by norm_num, by norm_num, h.1, h.2.1, h.2.2.2.2.2.2.2.2.1⟩
